import Mathlib

/-!
Verification of `make_wheels.py`, a script that packages the terraform binary
into Python wheels, one per supported platform.  The script is embedded
shallowly: pure helper functions (`normalize`, `rehash`, version derivation)
become Lean functions on `String` / `List Nat`; the linear control flow of the
script body becomes a concrete trace of steps with fail-stop semantics; file
contents are modelled as lists of byte values.
-/

set_option maxRecDepth 4096

namespace MakeWheels

/-! ## The `normalize` helper (make_wheels.py lines 55-57)

`re.sub(r"[-_.]+", "_", str(arg))`: every maximal run of `-`, `_`, `.` is
replaced by a single `_`. -/

/-- A character matched by the regex character class `[-_.]`. -/
def isSepChar (c : Char) : Bool :=
  c == '-' || c == '_' || c == '.'

/-- Left-to-right scan of `re.sub(r"[-_.]+", "_", ·)`.  The flag records
whether we are inside a run of separator characters that has already emitted
its `_`. -/
def normalizeAux : Bool → List Char → List Char
  | _, [] => []
  | inRun, c :: cs =>
    match isSepChar c, inRun with
    | true, true => normalizeAux true cs
    | true, false => '_' :: normalizeAux true cs
    | false, _ => c :: normalizeAux false cs

/-- Character-list version of `normalize`. -/
def normalizeChars (cs : List Char) : List Char :=
  normalizeAux false cs

/-- `normalize` from make_wheels.py: collapse each run of `[-_.]` into `_`. -/
def normalize (s : String) : String :=
  ⟨normalizeChars s.data⟩

/-! ## Decimal rendering, modelling Python `str(n)` for a nonnegative int -/

/-- Fuel-indexed digit accumulator; the fuel always exceeds the number of
decimal digits when called from `decChars`. -/
def decCharsAux : Nat → Nat → List Char
  | 0, _ => []
  | fuel + 1, n =>
    if n < 10 then [Char.ofNat (48 + n)]
    else decCharsAux fuel (n / 10) ++ [Char.ofNat (48 + n % 10)]

/-- Decimal digit list of a natural number (no leading zeros). -/
def decChars (n : Nat) : List Char :=
  decCharsAux (n + 1) n

/-- Python `str(·)` on a nonnegative integer. -/
def natStr (n : Nat) : String :=
  ⟨decChars n⟩

/-- Python `sep.join(parts)`. -/
def joinSep (sep : String) : List String → String
  | [] => ""
  | [x] => x
  | x :: y :: xs => x ++ sep ++ joinSep sep (y :: xs)

/-! ## The semver data model (the `semver.Version` values used by the script) -/

/-- A parsed semantic version, as produced by `semver.Version.parse`. -/
structure SemVer where
  major : Nat
  minor : Nat
  patch : Nat
  prerelease : Option String
  build : Option String
deriving DecidableEq, Repr

/-- A Python value appearing in `Version.to_tuple()`: an int, a str, or None. -/
inductive PyVal where
  | pyInt (n : Nat) : PyVal
  | pyStr (s : String) : PyVal
  | pyNone : PyVal
deriving DecidableEq, Repr

/-- Python truthiness for tuple components: `0`, `""` and `None` are falsy. -/
def PyVal.truthy : PyVal → Bool
  | .pyInt n => n != 0
  | .pyStr s => s != ""
  | .pyNone => false

/-- Python `str(·)` on a tuple component. -/
def PyVal.str : PyVal → String
  | .pyInt n => natStr n
  | .pyStr s => s
  | .pyNone => "None"

/-- `Version.to_tuple()`: `(major, minor, patch, prerelease, build)`. -/
def SemVer.toTuple (v : SemVer) : List PyVal :=
  [.pyInt v.major, .pyInt v.minor, .pyInt v.patch,
   (match v.prerelease with | some s => .pyStr s | none => .pyNone),
   (match v.build with | some s => .pyStr s | none => .pyNone)]

/-- `Version.finalize_version()`: drop pre-release and build. -/
def SemVer.finalizeVersion (v : SemVer) : SemVer :=
  ⟨v.major, v.minor, v.patch, none, none⟩

/-- `str(version)` for a `semver.Version`. -/
def SemVer.render (v : SemVer) : String :=
  natStr v.major ++ "." ++ natStr v.minor ++ "." ++ natStr v.patch
    ++ (match v.prerelease with | some s => "-" ++ s | none => "")
    ++ (match v.build with | some s => "+" ++ s | none => "")

/-- Line 73: `".".join([normalize(n) for n in GIT_SEMVER.to_tuple() if n])`. -/
def PACKAGE_VERSION_of (v : SemVer) : String :=
  joinSep "." ((v.toTuple.filter PyVal.truthy).map (fun n => normalize (PyVal.str n)))

/-- Line 74: `str(GIT_SEMVER.finalize_version())`. -/
def TERRAFORM_VERSION_of (v : SemVer) : String :=
  SemVer.render v.finalizeVersion

/-! ## `semver.Version.parse`, following the published semver grammar -/

/-- Decimal digit test. -/
def isDigitChar (c : Char) : Bool :=
  '0' ≤ c && c ≤ '9'

/-- Character allowed in pre-release / build identifiers: `[0-9A-Za-z-]`. -/
def isIdentChar (c : Char) : Bool :=
  isDigitChar c || ('a' ≤ c && c ≤ 'z') || ('A' ≤ c && c ≤ 'Z') || c == '-'

/-- Numeric identifier: digits only, no leading zero (`0|[1-9]\d*`). -/
def validNumericId (cs : List Char) : Bool :=
  !cs.isEmpty && cs.all isDigitChar && (cs.length == 1 || cs.head? != some '0')

/-- Pre-release identifier: alphanumeric/hyphen, and numeric ones carry no
leading zero. -/
def validPreId (cs : List Char) : Bool :=
  !cs.isEmpty && cs.all isIdentChar &&
    (cs.any (fun c => !isDigitChar c) || validNumericId cs)

/-- Build identifier: one or more alphanumeric/hyphen characters. -/
def validBuildId (cs : List Char) : Bool :=
  !cs.isEmpty && cs.all isIdentChar

/-- Numeric value of a digit list. -/
def natOfDigits (cs : List Char) : Nat :=
  cs.foldl (fun n c => n * 10 + (c.toNat - 48)) 0

/-- Split at the first occurrence of `sep`: the part before it, and — when the
separator occurs — the part after it. -/
def breakAt (sep : Char) : List Char → List Char × Option (List Char)
  | [] => ([], none)
  | c :: cs =>
    if c == sep then ([], some cs)
    else
      let r := breakAt sep cs
      (c :: r.1, r.2)

/-- `semver.Version.parse`: `major.minor.patch` with optional `-prerelease`
and `+build`, validated against the semver grammar. -/
def parseVersion (s : String) : Option SemVer :=
  let p1 := breakAt '+' s.data
  let p2 := breakAt '-' p1.1
  match p2.1.splitOn '.' with
  | [ma, mi, pa] =>
    if validNumericId ma && validNumericId mi && validNumericId pa
        && (match p2.2 with
            | none => true
            | some pre => (pre.splitOn '.').all validPreId)
        && (match p1.2 with
            | none => true
            | some bld => (bld.splitOn '.').all validBuildId) then
      some ⟨natOfDigits ma, natOfDigits mi, natOfDigits pa,
            p2.2.map (fun l => ⟨l⟩), p1.2.map (fun l => ⟨l⟩)⟩
    else none
  | _ => none

/-- Line 71: the default `GIT_TAG` when the environment variable is unset. -/
def GIT_TAG_default : String := "1.5.7-rc0"

/-! ## `read_chunks` (lines 20-26)

`file.read(size)` on a file whose remaining content is `bytes` returns the
next `min size |bytes|` bytes; the generator stops at the first empty chunk,
so a `size` of `0` yields nothing at all. -/

/-- Fuel-indexed chunking; the fuel is an upper bound on the number of bytes
still to be read, so the recursion is structural. -/
def readChunksAux : Nat → Nat → List Nat → List (List Nat)
  | _, _, [] => []
  | _, 0, _ :: _ => []
  | 0, _ + 1, _ :: _ => []
  | fuel + 1, size + 1, b :: bs =>
    (b :: bs.take size) :: readChunksAux fuel (size + 1) (bs.drop size)

/-- `read_chunks(file, size)` where `bytes` is the file content. -/
def readChunks (size : Nat) (bytes : List Nat) : List (List Nat) :=
  readChunksAux bytes.length size bytes

/-! ## SHA-256 (the `hashlib.sha256` collaborator), FIPS 180-4 -/

/-- Truncate to a 32-bit word. -/
def w32 (n : Nat) : Nat := n % 4294967296

/-- Right-rotate a 32-bit word by `k` positions. -/
def rotr32 (k x : Nat) : Nat :=
  w32 ((x >>> k) ||| (x <<< (32 - k)))

/-- SHA-256 `Ch(x, y, z)`. -/
def shaCh (x y z : Nat) : Nat :=
  (x &&& y) ^^^ ((x ^^^ 4294967295) &&& z)

/-- SHA-256 `Maj(x, y, z)`. -/
def shaMaj (x y z : Nat) : Nat :=
  (x &&& y) ^^^ (x &&& z) ^^^ (y &&& z)

/-- SHA-256 `Σ₀`. -/
def bigSigma0 (x : Nat) : Nat :=
  rotr32 2 x ^^^ rotr32 13 x ^^^ rotr32 22 x

/-- SHA-256 `Σ₁`. -/
def bigSigma1 (x : Nat) : Nat :=
  rotr32 6 x ^^^ rotr32 11 x ^^^ rotr32 25 x

/-- SHA-256 `σ₀`. -/
def smallSigma0 (x : Nat) : Nat :=
  rotr32 7 x ^^^ rotr32 18 x ^^^ (x >>> 3)

/-- SHA-256 `σ₁`. -/
def smallSigma1 (x : Nat) : Nat :=
  rotr32 17 x ^^^ rotr32 19 x ^^^ (x >>> 10)

/-- The 64 SHA-256 round constants, in decimal. -/
def K256 : List Nat :=
  [1116352408, 1899447441, 3049323471, 3921009573, 961987163,
   1508970993, 2453635748, 2870763221, 3624381080, 310598401,
   607225278, 1426881987, 1925078388, 2162078206, 2614888103,
   3248222580, 3835390401, 4022224774, 264347078, 604807628,
   770255983, 1249150122, 1555081692, 1996064986, 2554220882,
   2821834349, 2952996808, 3210313671, 3336571891, 3584528711,
   113926993, 338241895, 666307205, 773529912, 1294757372,
   1396182291, 1695183700, 1986661051, 2177026350, 2456956037,
   2730485921, 2820302411, 3259730800, 3345764771, 3516065817,
   3600352804, 4094571909, 275423344, 430227734, 506948616,
   659060556, 883997877, 958139571, 1322822218, 1537002063,
   1747873779, 1955562222, 2024104815, 2227730452, 2361852424,
   2428436474, 2756734187, 3204031479, 3329325298]

/-- The initial SHA-256 hash value `H⁽⁰⁾`, in decimal. -/
def H256init : List Nat :=
  [1779033703, 3144134277, 1013904242, 2773480762,
   1359893119, 2600822924, 528734635, 1541459225]

/-- Working state `a..h` of the SHA-256 compression function. -/
structure Sha256State where
  va : Nat
  vb : Nat
  vc : Nat
  vd : Nat
  ve : Nat
  vf : Nat
  vg : Nat
  vh : Nat
deriving DecidableEq, Repr

/-- Extend the message schedule by one word. -/
def scheduleStep (w : List Nat) : List Nat :=
  let t := w.length
  w ++ [w32 (smallSigma1 (w.getD (t - 2) 0) + w.getD (t - 7) 0
              + smallSigma0 (w.getD (t - 15) 0) + w.getD (t - 16) 0)]

/-- The 64-word message schedule of one block. -/
def msgSchedule (ws : List Nat) : List Nat :=
  (List.range 48).foldl (fun w _ => scheduleStep w) ws

/-- One SHA-256 round, consuming the pair `(Kₜ, Wₜ)`. -/
def roundStep (st : Sha256State) (kw : Nat × Nat) : Sha256State :=
  let t1 := w32 (st.vh + bigSigma1 st.ve + shaCh st.ve st.vf st.vg + kw.1 + kw.2)
  let t2 := w32 (bigSigma0 st.va + shaMaj st.va st.vb st.vc)
  ⟨w32 (t1 + t2), st.va, st.vb, st.vc, w32 (st.vd + t1), st.ve, st.vf, st.vg⟩

/-- Compress one 16-word block into the intermediate hash `hs`. -/
def compressBlock (hs : List Nat) (block : List Nat) : List Nat :=
  let w := msgSchedule block
  let st0 : Sha256State :=
    ⟨hs.getD 0 0, hs.getD 1 0, hs.getD 2 0, hs.getD 3 0,
     hs.getD 4 0, hs.getD 5 0, hs.getD 6 0, hs.getD 7 0⟩
  let fin := (K256.zip w).foldl roundStep st0
  [w32 (hs.getD 0 0 + fin.va), w32 (hs.getD 1 0 + fin.vb),
   w32 (hs.getD 2 0 + fin.vc), w32 (hs.getD 3 0 + fin.vd),
   w32 (hs.getD 4 0 + fin.ve), w32 (hs.getD 5 0 + fin.vf),
   w32 (hs.getD 6 0 + fin.vg), w32 (hs.getD 7 0 + fin.vh)]

/-- Big-endian 4-byte groups to 32-bit words. -/
def bytesToWordsBE : List Nat → List Nat
  | b0 :: b1 :: b2 :: b3 :: rest =>
    (b0 * 16777216 + b1 * 65536 + b2 * 256 + b3) :: bytesToWordsBE rest
  | _ => []

/-- Big-endian bytes of a 32-bit word. -/
def wordToBytesBE (w : Nat) : List Nat :=
  [w / 16777216 % 256, w / 65536 % 256, w / 256 % 256, w % 256]

/-- FIPS 180-4 padding: `0x80`, zeros to 56 mod 64, 8-byte big-endian bit
length. -/
def sha256Pad (msg : List Nat) : List Nat :=
  let len := msg.length
  let bitLen := 8 * len % 18446744073709551616
  msg ++ [128] ++ List.replicate ((119 - len % 64) % 64) 0
    ++ [bitLen / 72057594037927936 % 256, bitLen / 281474976710656 % 256,
        bitLen / 1099511627776 % 256, bitLen / 4294967296 % 256,
        bitLen / 16777216 % 256, bitLen / 65536 % 256,
        bitLen / 256 % 256, bitLen % 256]

/-- SHA-256 of a byte list, as a list of 32 bytes. -/
def sha256 (msg : List Nat) : List Nat :=
  let blocks := readChunks 64 (sha256Pad msg)
  let hs := blocks.foldl (fun hs b => compressBlock hs (bytesToWordsBE b)) H256init
  hs.foldr (fun w acc => wordToBytesBE w ++ acc) []

/-! ## `base64.urlsafe_b64encode` and `rehash` (lines 43-52) -/

/-- The URL-safe base64 alphabet character for a 6-bit value. -/
def b64UrlChar (n : Nat) : Char :=
  if n < 26 then Char.ofNat (65 + n)
  else if n < 52 then Char.ofNat (97 + (n - 26))
  else if n < 62 then Char.ofNat (48 + (n - 52))
  else if n == 62 then '-'
  else '_'

/-- `base64.urlsafe_b64encode` on a byte list, including `=` padding. -/
def urlsafeB64encodeChars : List Nat → List Char
  | [] => []
  | [a] => [b64UrlChar (a / 4), b64UrlChar (a % 4 * 16), '=', '=']
  | [a, b] => [b64UrlChar (a / 4), b64UrlChar (a % 4 * 16 + b / 16),
               b64UrlChar (b % 16 * 4), '=']
  | a :: b :: c :: rest =>
    b64UrlChar (a / 4) :: b64UrlChar (a % 4 * 16 + b / 16)
      :: b64UrlChar (b % 16 * 4 + c / 64) :: b64UrlChar (c % 64)
      :: urlsafeB64encodeChars rest

/-- Python `.rstrip("=")`: drop trailing `=` characters. -/
def rstripEq (cs : List Char) : List Char :=
  (cs.reverse.dropWhile (fun c => c == '=')).reverse

/-- `rehash(path)` (lines 43-52) on a file whose byte content is `fileBytes`:
stream the file in 1 MiB chunks, feeding each chunk to the incremental hash
(`hashlib` guarantees that updating with `b₁` then `b₂` hashes `b₁ ++ b₂`)
while summing chunk lengths, then format the digest. -/
def rehashBytes (fileBytes : List Nat) : String × String :=
  let chunks := readChunks 1048576 fileBytes
  let acc := chunks.foldl
    (fun (st : List Nat × Nat) block => (st.1 ++ block, st.2 + block.length))
    ([], 0)
  ("sha256=" ++ String.mk (rstripEq (urlsafeB64encodeChars (sha256 acc.1))),
   natStr acc.2)

/-- The digest string as the spec describes it: `sha256=` followed by the
unpadded URL-safe base64 encoding of the SHA-256 hash of the file's bytes. -/
def digestSpec (bytes : List Nat) : String :=
  "sha256=" ++ String.mk (rstripEq (urlsafeB64encodeChars (sha256 bytes)))

/-! ## Static configuration (lines 76-90) -/

/-- Line 76. -/
def PACKAGE_NAME : String := "terraform-binary-wheel"

/-- Lines 81-90: the static platform table, in insertion order.  Note that
both the `aarch64` manylinux/musllinux entry and the `macosx_11_0_arm64`
entry map to the upstream architecture `linux_arm64`. -/
def PY_PLATFORM_TF_ARCH : List (String × String) :=
  [("manylinux_2_5_x86_64.musllinux_1_1_x86_64", "linux_amd64"),
   ("manylinux_2_5_i686.musllinux_1_1_i686", "linux_386"),
   ("manylinux_2_5_aarch64.musllinux_1_1_aarch64", "linux_arm64"),
   ("linux_armv6l.linux_armv7l", "linux_arm"),
   ("macosx_11_0_x86_64", "darwin_amd64"),
   ("macosx_11_0_arm64", "linux_arm64"),
   ("win_amd64", "windows_amd64"),
   ("win32", "windows_386")]

/-! ## Download URLs and workspace paths (lines 60-68, 145-150) -/

/-- `TERRAFORM_URL.format(version, arch)` (lines 60-62, 147). -/
def terraformZipUrl (version arch : String) : String :=
  "https://releases.hashicorp.com/terraform/" ++ version ++ "/terraform_"
    ++ version ++ "_" ++ arch ++ ".zip"

/-- `Path(url).name`: the final `/`-separated component of a URL. -/
def urlLastComponent (s : String) : String :=
  String.mk (s.data.foldl (fun acc c => if c == '/' then [] else acc ++ [c]) [])

/-- `BUILD_DIR.joinpath(Path(terraform_zip_url).name)` (line 148), with the
workspace directory rendered by its relative name `build`. -/
def terraformZipPath (version arch : String) : String :=
  "build/" ++ urlLastComponent (terraformZipUrl version arch)

/-- The download targets of the fetch loop (lines 145-150), in order. -/
def fetchLoopDownloads (version : String) : List String :=
  PY_PLATFORM_TF_ARCH.map (fun pa => terraformZipPath version pa.2)

/-- The `platform_zip` mapping built by the fetch loop (lines 145-150). -/
def fetchLoopPlatformZip (version : String) : List (String × String) :=
  PY_PLATFORM_TF_ARCH.map (fun pa => (pa.1, terraformZipPath version pa.2))

/-- The download URL the fetch loop computes for a platform identifier. -/
def platformZipUrlOf (version p : String) : Option String :=
  (List.lookup p PY_PLATFORM_TF_ARCH).map (terraformZipUrl version)

/-- The workspace file path the fetch loop computes for a platform
identifier. -/
def platformZipPathOf (version p : String) : Option String :=
  (List.lookup p PY_PLATFORM_TF_ARCH).map (terraformZipPath version)

/-! ## The per-platform wheel tree (lines 163-239)

A freshly assembled wheel tree is modelled as the list of its regular files
(`glob("**/*")` filtered by `is_file()`), each with its path relative to the
tree root, its byte content, and the mode explicitly set on it, if any. -/

/-- The literal passed to `os.chmod` for the binary (line 195). -/
def binaryChmodArg : Nat := 493

/-- A regular file of the assembled tree. -/
structure FileEntry where
  path : String
  content : List Nat
  mode : Option Nat
deriving DecidableEq, Repr

/-- The four files the loop body writes before RECORD (lines 176-217):
the binary under `{wheelname}.data/scripts/`, and LICENSE, METADATA and
WHEEL under `{wheelname}.dist-info/`. -/
def assembledFiles (wn binName : String)
    (binBytes licenseBytes metadataBytes wheelBytes : List Nat) :
    List FileEntry :=
  [⟨wn ++ ".data/scripts/" ++ binName, binBytes, some binaryChmodArg⟩,
   ⟨wn ++ ".dist-info/LICENSE", licenseBytes, none⟩,
   ⟨wn ++ ".dist-info/METADATA", metadataBytes, none⟩,
   ⟨wn ++ ".dist-info/WHEEL", wheelBytes, none⟩]

/-- `str(wheel_record.relative_to(wheel_tree))` (lines 182, 224). -/
def wheelRecordPath (wn : String) : String :=
  wn ++ ".dist-info/RECORD"

/-- `wheel_record_entries` (lines 219-224): one `path ↦ (digest, length)`
entry per regular file of the tree in walk order — RECORD is not yet on disk
at this point — plus the self-entry for RECORD with empty fields. -/
def wheelRecordEntries (files : List FileEntry) (recordRel : String) :
    List (String × String × String) :=
  files.map (fun f => (f.path, (rehashBytes f.content).1, (rehashBytes f.content).2))
    ++ [(recordRel, "", "")]

/-- `wheel_record_lines` (lines 225-227): `",".join([k, *v]) + "\n"`. -/
def wheelRecordLines (entries : List (String × String × String)) : List String :=
  entries.map (fun e => e.1 ++ "," ++ e.2.1 ++ "," ++ e.2.2 ++ "\n")

/-- The byte content of the written RECORD file (lines 229-230). -/
def recordFileBytes (entries : List (String × String × String)) : List Nat :=
  (wheelRecordLines entries).foldr (fun l acc => l.data.map Char.toNat ++ acc) []

/-- The tree at line 237, when the zip archive is written: the four assembled
files plus the RECORD file just written. -/
def finalWheelTree (wn binName : String)
    (binBytes licenseBytes metadataBytes wheelBytes : List Nat) :
    List FileEntry :=
  let files := assembledFiles wn binName binBytes licenseBytes metadataBytes wheelBytes
  files ++ [⟨wheelRecordPath wn,
            recordFileBytes (wheelRecordEntries files (wheelRecordPath wn)), none⟩]

/-- The entry names of the output archive (lines 234-239): every regular file
of the tree, named by its path relative to the tree root. -/
def zipNames (files : List FileEntry) : List String :=
  files.map (fun f => f.path)

/-! ## The script body as a fail-stop trace (lines 124-239)

The body is straight-line code; each external effect that can fail is one
step.  `sh` raises on a non-zero exit status and nothing in the script
catches any exception, so a run executes a prefix of the trace: every step
before the first failing step completes, the failing step is invoked but does
not complete, and nothing after it is invoked. -/

/-- One observable step of the script body, in source order. -/
inductive Step where
  | wgetShaSums : Step
  | wgetShaSumsSig : Step
  | gpgVerifySig : Step
  | wgetPlatformZip (arch : String) : Step
  | shasumCheckSums : Step
  | unpackPlatformZip (platform : String) : Step
  | assembleWheel (platform : String) : Step
deriving DecidableEq, Repr

/-- The full step sequence of a run in which nothing fails: download the
checksum manifest and its signature (lines 130-131), verify the signature
(lines 133-143), download each platform archive (lines 145-150), check the
checksums (lines 152-161), then per platform unpack and assemble
(lines 163-239). -/
def mainTrace : List Step :=
  [Step.wgetShaSums, Step.wgetShaSumsSig, Step.gpgVerifySig]
    ++ PY_PLATFORM_TF_ARCH.map (fun pa => Step.wgetPlatformZip pa.2)
    ++ [Step.shasumCheckSums]
    ++ (PY_PLATFORM_TF_ARCH.map
          (fun pa => [Step.unpackPlatformZip pa.1, Step.assembleWheel pa.1])).flatten

/-- Index of the first step that fails, among the first `n`. -/
def firstFailure (ok : Nat → Bool) : Nat → Option Nat
  | 0 => none
  | n + 1 =>
    match firstFailure ok n with
    | some i => some i
    | none => if ok n then none else some n

/-- The steps the run invokes: everything up to and including the first
failing step. -/
def invokedSteps (ok : Nat → Bool) : List Step :=
  match firstFailure ok mainTrace.length with
  | none => mainTrace
  | some i => mainTrace.take (i + 1)

/-- The steps that complete successfully: everything strictly before the
first failing step. -/
def completedSteps (ok : Nat → Bool) : List Step :=
  match firstFailure ok mainTrace.length with
  | none => mainTrace
  | some i => mainTrace.take i

/-- The process exit status: `0` on full success, `1` (the CPython exit code
for an uncaught exception) otherwise. -/
def processExitCode (ok : Nat → Bool) : Nat :=
  match firstFailure ok mainTrace.length with
  | none => 0
  | some _ => 1

/-! ## Spec-side formulations used to compare against the code -/

/-- The package version exactly as the spec sentence words it: every
*present* component (all three numeric components; pre-release and build when
present), each normalized, joined with `.`. -/
def PACKAGE_VERSION_claim (v : SemVer) : String :=
  joinSep "." ((v.toTuple.filter (fun part => part != PyVal.pyNone)).map
    (fun n => normalize (PyVal.str n)))

/-- The components the code actually keeps, worded structurally: nonzero
numeric components as plain decimals, then the pre-release and the build when
present, normalized. -/
def packageVersionParts (v : SemVer) : List String :=
  (if v.major == 0 then [] else [natStr v.major])
    ++ (if v.minor == 0 then [] else [natStr v.minor])
    ++ (if v.patch == 0 then [] else [natStr v.patch])
    ++ (match v.prerelease with | none => [] | some s => [normalize s])
    ++ (match v.build with | none => [] | some s => [normalize s])

/-- The amended package-version statement: truthy components only. -/
def PACKAGE_VERSION_amended (v : SemVer) : String :=
  joinSep "." (packageVersionParts v)

/-- The tool version as the claim words it: the numeric components joined
with `.`, pre-release and build removed. -/
def TERRAFORM_VERSION_claim (v : SemVer) : String :=
  joinSep "." [natStr v.major, natStr v.minor, natStr v.patch]

/-! ## Properties of `normalize` -/

theorem normalizeAux_nonsep (b : Bool) (c : Char) (cs : List Char)
    (h : isSepChar c = false) :
    normalizeAux b (c :: cs) = c :: normalizeAux false cs := by
  simp [normalizeAux, h]

theorem normalizeAux_sep_true (c : Char) (cs : List Char)
    (h : isSepChar c = true) :
    normalizeAux true (c :: cs) = normalizeAux true cs := by
  simp [normalizeAux, h]

theorem normalizeAux_sep_false (c : Char) (cs : List Char)
    (h : isSepChar c = true) :
    normalizeAux false (c :: cs) = '_' :: normalizeAux true cs := by
  simp [normalizeAux, h]

theorem normalizeAux_true_head (cs : List Char) :
    normalizeAux true cs = [] ∨
      ∃ c cs2, normalizeAux true cs = c :: cs2 ∧ isSepChar c = false := by
  induction cs with
  | nil => exact Or.inl rfl
  | cons c cs ih =>
    cases hc : isSepChar c with
    | true => rw [normalizeAux_sep_true c cs hc]; exact ih
    | false =>
      exact Or.inr ⟨c, normalizeAux false cs, normalizeAux_nonsep true c cs hc, hc⟩

theorem normalizeAux_true_fix (cs : List Char) :
    normalizeAux true (normalizeAux true cs) =
      normalizeAux false (normalizeAux true cs) := by
  rcases normalizeAux_true_head cs with h | ⟨c, cs2, h, hc⟩
  · rw [h]; rfl
  · rw [h, normalizeAux_nonsep true c cs2 hc, normalizeAux_nonsep false c cs2 hc]

theorem normalizeAux_idem (cs : List Char) :
    ∀ b, normalizeAux false (normalizeAux b cs) = normalizeAux b cs := by
  induction cs with
  | nil => intro b; rfl
  | cons c cs ih =>
    intro b
    cases hc : isSepChar c with
    | false =>
      rw [normalizeAux_nonsep b c cs hc, normalizeAux_nonsep false c _ hc, ih false]
    | true =>
      cases b with
      | true => rw [normalizeAux_sep_true c cs hc, ih true]
      | false =>
        rw [normalizeAux_sep_false c cs hc,
          normalizeAux_sep_false '_' _ (by decide),
          normalizeAux_true_fix cs, ih true]

theorem normalizeAux_true_eq_dropWhile (cs : List Char) :
    normalizeAux true cs = normalizeAux false (cs.dropWhile isSepChar) := by
  induction cs with
  | nil => rfl
  | cons c cs ih =>
    cases hc : isSepChar c with
    | true => rw [normalizeAux_sep_true c cs hc, ih]; simp [List.dropWhile_cons, hc]
    | false => rw [normalizeAux_nonsep true c cs hc]; simp [List.dropWhile_cons, hc,
        normalizeAux_nonsep false c cs hc]

theorem normalize_idem (s : String) : normalize (normalize s) = normalize s :=
  congrArg String.mk (normalizeAux_idem s.data false)

theorem normalizeAux_of_no_sep (cs : List Char)
    (h : ∀ c ∈ cs, isSepChar c = false) : ∀ b, normalizeAux b cs = cs := by
  induction cs with
  | nil => intro b; rfl
  | cons c cs ih =>
    intro b
    rw [normalizeAux_nonsep b c cs (h c (List.mem_cons_self c cs)),
      ih (fun d hd => h d (List.mem_cons_of_mem c hd)) false]

/-! ## Decimal strings contain no separator characters -/

theorem isDigitChar_ofNat_of_lt (d : Nat) (hd : d < 10) :
    isDigitChar (Char.ofNat (48 + d)) = true := by
  interval_cases d <;> decide

theorem decCharsAux_digits :
    ∀ fuel n, ∀ c ∈ decCharsAux fuel n, isDigitChar c = true := by
  intro fuel
  induction fuel with
  | zero => intro n c h; simp [decCharsAux] at h
  | succ fuel ih =>
    intro n c h
    rw [decCharsAux] at h
    by_cases hn : n < 10
    · simp only [if_pos hn, List.mem_singleton] at h
      subst h
      exact isDigitChar_ofNat_of_lt n hn
    · simp only [if_neg hn, List.mem_append, List.mem_singleton] at h
      rcases h with h | h
      · exact ih _ c h
      · subst h
        exact isDigitChar_ofNat_of_lt _ (Nat.mod_lt _ (by norm_num))

theorem isDigitChar_not_sep (c : Char) (h : isDigitChar c = true) :
    isSepChar c = false := by
  simp only [isDigitChar, Bool.and_eq_true, decide_eq_true_eq] at h
  simp only [isSepChar, Bool.or_eq_false_iff, beq_eq_false_iff_ne, ne_eq]
  refine ⟨⟨fun hc => ?_, fun hc => ?_⟩, fun hc => ?_⟩ <;> subst hc <;>
    exact absurd h (by decide)

theorem normalize_natStr (n : Nat) : normalize (natStr n) = natStr n :=
  congrArg String.mk
    (normalizeAux_of_no_sep (decChars n)
      (fun c hc => isDigitChar_not_sep c (decCharsAux_digits (n + 1) n c hc)) false)

/-! ## Soundness facts about `parseVersion` -/

theorem parseVersion_pre_build_nonempty (s : String) (v : SemVer)
    (h : parseVersion s = some v) :
    v.prerelease ≠ some "" ∧ v.build ≠ some "" := by
  simp only [parseVersion] at h
  split at h
  next ma mi pa hx =>
    split_ifs at h with hcond
    obtain rfl := Option.some.inj h
    simp only [Bool.and_eq_true] at hcond
    constructor
    · intro hps
      obtain ⟨l, hl, hmk⟩ := Option.map_eq_some'.mp hps
      have hnil : l = [] := by
        have := congrArg String.data hmk
        simpa using this
      rw [hl, hnil] at hcond
      exact absurd hcond.1.2 (by decide)
    · intro hbs
      obtain ⟨l, hl, hmk⟩ := Option.map_eq_some'.mp hbs
      have hnil : l = [] := by
        have := congrArg String.data hmk
        simpa using this
      rw [hl, hnil] at hcond
      exact absurd hcond.2 (by decide)
  next x hx => exact absurd h (by simp)

theorem version_of_eq_amended (v : SemVer) (hpre : v.prerelease ≠ some "")
    (hbuild : v.build ≠ some "") :
    PACKAGE_VERSION_of v = PACKAGE_VERSION_amended v := by
  rcases v with ⟨M, m, p, pre, b⟩
  simp only at hpre hbuild
  rcases pre with _ | ps
  all_goals rcases b with _ | bs
  all_goals (try replace hpre : ps ≠ "" := by simpa using hpre)
  all_goals (try replace hbuild : bs ≠ "" := by simpa using hbuild)
  all_goals (by_cases hM : M = 0 <;> by_cases hm : m = 0 <;> by_cases hp : p = 0 <;>
    simp [PACKAGE_VERSION_of, PACKAGE_VERSION_amended, packageVersionParts,
      SemVer.toTuple, PyVal.truthy, PyVal.str, List.filter_cons, joinSep,
      normalize_natStr, bne_iff_ne, beq_iff_eq, hM, hm, hp, hpre, hbuild])

theorem terraform_of_eq_claim (v : SemVer) :
    TERRAFORM_VERSION_of v = TERRAFORM_VERSION_claim v := by
  rcases v with ⟨M, m, p, pre, b⟩
  simp [TERRAFORM_VERSION_of, TERRAFORM_VERSION_claim, SemVer.finalizeVersion,
    SemVer.render, joinSep, String.append_empty, String.append_assoc]

/-! ## Claim theorems about version derivation -/

/-- C2, counterexample: the claim says the package version keeps every
*present* component; on input `"1.5.0"` the code drops the zero patch
component and produces `"1.5"`, not `"1.5.0"`. -/
theorem C2_counterexample_zero_component :
    parseVersion "1.5.0" = some ⟨1, 5, 0, none, none⟩ ∧
    PACKAGE_VERSION_of ⟨1, 5, 0, none, none⟩ = "1.5" ∧
    PACKAGE_VERSION_claim ⟨1, 5, 0, none, none⟩ = "1.5.0" ∧
    (PACKAGE_VERSION_of ⟨1, 5, 0, none, none⟩ ==
      PACKAGE_VERSION_claim ⟨1, 5, 0, none, none⟩) = false :=
  ⟨by decide, by decide, by decide, by decide⟩

/-- C2, amended: for every valid semantic-version input, the derived package
version keeps exactly the truthy components — the nonzero numeric components
and the present (necessarily nonempty) pre-release and build — each
normalized, joined with `.`; and the derived tool version is the version with
pre-release and build removed, joined with `.`. -/
theorem C2_package_and_tool_version (s : String) (v : SemVer)
    (h : parseVersion s = some v) :
    PACKAGE_VERSION_of v = PACKAGE_VERSION_amended v ∧
    TERRAFORM_VERSION_of v = TERRAFORM_VERSION_claim v := by
  obtain ⟨hpre, hbuild⟩ := parseVersion_pre_build_nonempty s v h
  exact ⟨version_of_eq_amended v hpre hbuild, terraform_of_eq_claim v⟩

/-- Witness for C2 at the concrete input `"1.5.0"`. -/
theorem C2_package_and_tool_version_witness :
    PACKAGE_VERSION_of ⟨1, 5, 0, none, none⟩ =
      PACKAGE_VERSION_amended ⟨1, 5, 0, none, none⟩ ∧
    TERRAFORM_VERSION_of ⟨1, 5, 0, none, none⟩ =
      TERRAFORM_VERSION_claim ⟨1, 5, 0, none, none⟩ :=
  C2_package_and_tool_version "1.5.0" ⟨1, 5, 0, none, none⟩ (by decide)

/-- C4: the version input `"1.5.7-rc0"` (the default `GIT_TAG`) yields the
package version `"1.5.7.rc0"` and the finalized tool version `"1.5.7"`. -/
theorem C4_default_tag_versions :
    parseVersion GIT_TAG_default = some ⟨1, 5, 7, some "rc0", none⟩ ∧
    (parseVersion GIT_TAG_default).map PACKAGE_VERSION_of = some "1.5.7.rc0" ∧
    (parseVersion GIT_TAG_default).map TERRAFORM_VERSION_of = some "1.5.7" :=
  ⟨by decide, by decide, by decide⟩

/-- C10: numeric components equal to `0` are omitted from the package
version because the tuple is filtered by Python truthiness: `"1.5.0"` yields
`"1.5"`, `"0.5.7"` yields `"5.7"`, and the truthy filter never keeps a zero
numeric component. -/
theorem C10_zero_components_filtered :
    (parseVersion "1.5.0").map PACKAGE_VERSION_of = some "1.5" ∧
    (parseVersion "0.5.7").map PACKAGE_VERSION_of = some "5.7" ∧
    ∀ v : SemVer, (v.toTuple.filter PyVal.truthy).count (PyVal.pyInt 0) = 0 := by
  refine ⟨by decide, by decide, fun v => ?_⟩
  rw [List.count_eq_zero]
  intro hmem
  have := (List.mem_filter.mp hmem).2
  simp [PyVal.truthy] at this

/-! ## Claim theorems about `normalize` -/

/-- C6: `normalize` is idempotent, and — by its defining scan equations — it
replaces each maximal run of characters from `[-_.]` by a single `_` (a run
head emits `_` and the rest of the run is skipped) while every other
character is kept unchanged. -/
theorem C6_normalize_idempotent_collapses_runs :
    (∀ s : String, normalize (normalize s) = normalize s) ∧
    normalizeChars [] = [] ∧
    (∀ c cs, isSepChar c = false → normalizeChars (c :: cs) = c :: normalizeChars cs) ∧
    (∀ c cs, isSepChar c = true →
      normalizeChars (c :: cs) = '_' :: normalizeChars (cs.dropWhile isSepChar)) := by
  refine ⟨normalize_idem, rfl, ?_, ?_⟩
  · intro c cs h
    exact normalizeAux_nonsep false c cs h
  · intro c cs h
    unfold normalizeChars
    rw [normalizeAux_sep_false c cs h, normalizeAux_true_eq_dropWhile]

/-- Witness for C6 at concrete inputs. -/
theorem C6_normalize_witness :
    normalize (normalize "a-._b") = normalize "a-._b" ∧
    normalizeChars ['-', '.', 'b'] =
      '_' :: normalizeChars (List.dropWhile isSepChar ['.', 'b']) ∧
    normalizeChars ['b', '-'] = 'b' :: normalizeChars ['-'] :=
  ⟨C6_normalize_idempotent_collapses_runs.1 "a-._b",
   C6_normalize_idempotent_collapses_runs.2.2.2 '-' ['.', 'b'] (by decide),
   C6_normalize_idempotent_collapses_runs.2.2.1 'b' ['-'] (by decide)⟩

/-! ## Claim theorem about the binary's permission bits -/

/-- C8: in every platform iteration, the binary copied into the scripts
directory gets its mode set to the decimal literal 493, which is octal 755:
owner read/write/execute and group/other read/execute. -/
theorem C8_binary_chmod_755 (wn binName : String)
    (binBytes licenseBytes metadataBytes wheelBytes : List Nat) :
    (assembledFiles wn binName binBytes licenseBytes metadataBytes wheelBytes).head? =
      some ⟨wn ++ ".data/scripts/" ++ binName, binBytes, some binaryChmodArg⟩ ∧
    binaryChmodArg = 0o755 ∧
    (binaryChmodArg.testBit 8 = true ∧ binaryChmodArg.testBit 7 = true ∧
      binaryChmodArg.testBit 6 = true) ∧
    (binaryChmodArg.testBit 5 = true ∧ binaryChmodArg.testBit 4 = false ∧
      binaryChmodArg.testBit 3 = true) ∧
    (binaryChmodArg.testBit 2 = true ∧ binaryChmodArg.testBit 1 = false ∧
      binaryChmodArg.testBit 0 = true) :=
  ⟨rfl, by decide, by decide, by decide, by decide⟩

/-! ## Chunked reading reassembles the file -/

theorem readChunksAux_flatten :
    ∀ (fuel size : Nat) (bytes : List Nat), 0 < size → bytes.length ≤ fuel →
      (readChunksAux fuel size bytes).flatten = bytes := by
  intro fuel
  induction fuel with
  | zero =>
    intro size bytes hs hb
    cases bytes with
    | nil => cases size <;> rfl
    | cons b bs => simp at hb
  | succ fuel ih =>
    intro size bytes hs hb
    cases size with
    | zero => exact absurd hs (by omega)
    | succ size =>
      cases bytes with
      | nil => rfl
      | cons b bs =>
        rw [readChunksAux]
        have hlen : (bs.drop size).length ≤ fuel := by
          simp only [List.length_cons] at hb
          simp only [List.length_drop]
          omega
        simp only [List.flatten_cons, ih (size + 1) (bs.drop size) (Nat.succ_pos _) hlen]
        simp [List.take_append_drop]

theorem rehash_foldl_acc (chunks : List (List Nat)) :
    ∀ acc : List Nat × Nat,
      chunks.foldl (fun st block => (st.1 ++ block, st.2 + block.length)) acc =
        (acc.1 ++ chunks.flatten, acc.2 + chunks.flatten.length) := by
  induction chunks with
  | nil => intro acc; simp
  | cons c cs ih =>
    intro acc
    simp [ih, List.append_assoc, List.length_append, Nat.add_assoc]

/-! ## Claim theorem about `rehash` -/

/-- C5: for every file content, `rehash` returns the pair of `sha256=`
followed by the unpadded URL-safe base64 encoding of the SHA-256 hash of the
file's bytes, and the byte count rendered in decimal — the chunked streaming
loop feeds exactly the file's bytes to the hash and counts every byte — and
it is a deterministic pure function of the byte content. -/
theorem C5_rehash_digest_and_length (bytes bytes2 : List Nat) :
    rehashBytes bytes = (digestSpec bytes, natStr bytes.length) ∧
    (bytes = bytes2 → rehashBytes bytes = rehashBytes bytes2) := by
  constructor
  · simp only [rehashBytes, readChunks]
    rw [rehash_foldl_acc,
      readChunksAux_flatten bytes.length 1048576 bytes (by norm_num) (Nat.le_refl _)]
    simp [digestSpec]
  · intro h
    rw [h]

/-- Witness for C5 at a concrete two-byte file. -/
theorem C5_rehash_witness :
    rehashBytes [5, 6] = (digestSpec [5, 6], natStr 2) ∧
    rehashBytes [5, 6] = rehashBytes [5, 6] :=
  ⟨(C5_rehash_digest_and_length [5, 6] [5, 6]).1,
   (C5_rehash_digest_and_length [5, 6] [5, 6]).2 rfl⟩

/-! ## Claim theorem about the duplicated `linux_arm64` mapping -/

/-- C9: platform identifiers that map to the same upstream architecture get
the same download URL and the same workspace path — in particular the
`aarch64` manylinux/musllinux platform and `macosx_11_0_arm64` both map to
`linux_arm64` — so that path is downloaded twice (the second download
overwriting the first) and both platforms' wheels are assembled from the one
shared archive file. -/
theorem C9_duplicate_arch_shared_archive (version : String) :
    (∀ p1 p2, List.lookup p1 PY_PLATFORM_TF_ARCH = List.lookup p2 PY_PLATFORM_TF_ARCH →
      platformZipUrlOf version p1 = platformZipUrlOf version p2 ∧
      platformZipPathOf version p1 = platformZipPathOf version p2) ∧
    List.lookup "manylinux_2_5_aarch64.musllinux_1_1_aarch64" PY_PLATFORM_TF_ARCH =
      some "linux_arm64" ∧
    List.lookup "macosx_11_0_arm64" PY_PLATFORM_TF_ARCH = some "linux_arm64" ∧
    List.lookup "manylinux_2_5_aarch64.musllinux_1_1_aarch64"
      (fetchLoopPlatformZip version) = some (terraformZipPath version "linux_arm64") ∧
    List.lookup "macosx_11_0_arm64" (fetchLoopPlatformZip version) =
      some (terraformZipPath version "linux_arm64") ∧
    (fetchLoopDownloads "1.5.7").count (terraformZipPath "1.5.7" "linux_arm64") = 2 := by
  refine ⟨?_, by decide, by decide, rfl, rfl, by decide⟩
  intro p1 p2 h
  unfold platformZipUrlOf platformZipPathOf
  rw [h]
  exact ⟨rfl, rfl⟩

/-- Witness for C9 at the two platforms named by the claim. -/
theorem C9_duplicate_arch_witness :
    platformZipUrlOf "1.5.7" "manylinux_2_5_aarch64.musllinux_1_1_aarch64" =
      platformZipUrlOf "1.5.7" "macosx_11_0_arm64" ∧
    platformZipPathOf "1.5.7" "manylinux_2_5_aarch64.musllinux_1_1_aarch64" =
      platformZipPathOf "1.5.7" "macosx_11_0_arm64" :=
  (C9_duplicate_arch_shared_archive "1.5.7").1
    "manylinux_2_5_aarch64.musllinux_1_1_aarch64" "macosx_11_0_arm64" (by decide)

/-! ## Properties of the fail-stop execution of the trace -/

theorem firstFailure_none_iff (ok : Nat → Bool) :
    ∀ n, firstFailure ok n = none ↔ ∀ i, i < n → ok i = true := by
  intro n
  induction n with
  | zero => simp [firstFailure]
  | succ n ih =>
    rw [firstFailure]
    cases hf : firstFailure ok n with
    | some k =>
      constructor
      · intro hc
        simp at hc
      · intro hall
        have hnone : firstFailure ok n = none :=
          ih.mpr (fun i hi => hall i (Nat.lt_succ_of_lt hi))
        rw [hf] at hnone
        simp at hnone
    | none =>
      by_cases hok : ok n = true
      · simp only [hok, if_true]
        constructor
        · intro _ i hi
          rcases Nat.lt_succ_iff_lt_or_eq.mp hi with hlt | heq
          · exact ih.mp hf i hlt
          · subst heq; exact hok
        · intro _; trivial
      · have hok2 : ok n = false := by simpa using hok
        rw [if_neg hok]
        constructor
        · intro hc
          simp at hc
        · intro hall
          rw [hall n (Nat.lt_succ_self n)] at hok2
          simp at hok2

theorem firstFailure_some_spec (ok : Nat → Bool) :
    ∀ n i, firstFailure ok n = some i →
      i < n ∧ ok i = false ∧ ∀ j, j < i → ok j = true := by
  intro n
  induction n with
  | zero => intro i h; simp [firstFailure] at h
  | succ n ih =>
    intro i h
    rw [firstFailure] at h
    cases hf : firstFailure ok n with
    | some k =>
      rw [hf] at h
      obtain rfl : k = i := Option.some.inj h
      obtain ⟨h1, h2, h3⟩ := ih k hf
      exact ⟨Nat.lt_succ_of_lt h1, h2, h3⟩
    | none =>
      rw [hf] at h
      by_cases hok : ok n = true
      · rw [if_pos hok] at h
        simp at h
      · have hok2 : ok n = false := by simpa using hok
        rw [if_neg hok] at h
        obtain rfl : n = i := Option.some.inj h
        exact ⟨Nat.lt_succ_self n, hok2,
          fun j hj => (firstFailure_none_iff ok n).mp hf j hj⟩

theorem mem_take_mono {α : Type} (l : List α) {m k : Nat} (h : m ≤ k) {x : α}
    (hx : x ∈ l.take m) : x ∈ l.take k := by
  have heq : (l.take k).take m = l.take m := by
    rw [List.take_take]
    congr 1
    omega
  rw [← heq] at hx
  exact List.mem_of_mem_take hx

theorem mainTrace_take_12 :
    mainTrace.take 12 =
      [Step.wgetShaSums, Step.wgetShaSumsSig, Step.gpgVerifySig,
       Step.wgetPlatformZip "linux_amd64", Step.wgetPlatformZip "linux_386",
       Step.wgetPlatformZip "linux_arm64", Step.wgetPlatformZip "linux_arm",
       Step.wgetPlatformZip "darwin_amd64", Step.wgetPlatformZip "linux_arm64",
       Step.wgetPlatformZip "windows_amd64", Step.wgetPlatformZip "windows_386",
       Step.shasumCheckSums] := rfl

/-! ## Claim theorem about verification ordering -/

/-- C3: in every run — whatever pattern of step failures occurs — if the
checksum check is invoked then the signature verification has completed
successfully before it, and if any platform archive is unpacked then the
checksum check has completed successfully before it; statically, the
signature verification sits at trace index 2, the checksum check at index
11, and every unpack step strictly after it. -/
theorem C3_signature_then_checksums_then_unpack (ok : Nat → Bool) :
    (Step.shasumCheckSums ∈ invokedSteps ok →
      Step.gpgVerifySig ∈ completedSteps ok) ∧
    (∀ p, Step.unpackPlatformZip p ∈ invokedSteps ok →
      Step.shasumCheckSums ∈ completedSteps ok) ∧
    mainTrace[2]? = some Step.gpgVerifySig ∧
    mainTrace[11]? = some Step.shasumCheckSums ∧
    (∀ i p, mainTrace[i]? = some (Step.unpackPlatformZip p) → 11 < i) := by
  refine ⟨?_, ?_, by decide, by decide, ?_⟩
  · intro hmem
    unfold invokedSteps completedSteps at *
    cases hf : firstFailure ok mainTrace.length with
    | none =>
      simp only [hf] at hmem ⊢
      decide
    | some i =>
      simp only [hf] at hmem ⊢
      have h12 : 12 ≤ i + 1 := by
        by_contra hlt
        push_neg at hlt
        exact absurd (mem_take_mono mainTrace (by omega : i + 1 ≤ 11) hmem)
          (by decide)
      exact mem_take_mono mainTrace (by omega : 11 ≤ i)
        (by decide : Step.gpgVerifySig ∈ mainTrace.take 11)
  · intro p hmem
    unfold invokedSteps completedSteps at *
    cases hf : firstFailure ok mainTrace.length with
    | none =>
      simp only [hf] at hmem ⊢
      decide
    | some i =>
      simp only [hf] at hmem ⊢
      have h13 : 13 ≤ i + 1 := by
        by_contra hlt
        push_neg at hlt
        have h12 : Step.unpackPlatformZip p ∈ mainTrace.take 12 :=
          mem_take_mono mainTrace (by omega : i + 1 ≤ 12) hmem
        rw [mainTrace_take_12] at h12
        simp at h12
      exact mem_take_mono mainTrace (by omega : 12 ≤ i)
        (by decide : Step.shasumCheckSums ∈ mainTrace.take 12)
  · intro i p hget
    by_contra hle
    push_neg at hle
    have h2 : (mainTrace.take 12)[i]? = some (Step.unpackPlatformZip p) := by
      rw [List.getElem?_take, if_pos (by omega : i < 12)]
      exact hget
    obtain ⟨hlt, hEl⟩ := List.getElem?_eq_some_iff.mp h2
    have hmem : Step.unpackPlatformZip p ∈ mainTrace.take 12 :=
      hEl ▸ List.getElem_mem hlt
    rw [mainTrace_take_12] at hmem
    simp at hmem

/-- Witness for C3 on the run in which every step succeeds. -/
theorem C3_ordering_witness :
    Step.gpgVerifySig ∈ completedSteps (fun _ => true) ∧
    Step.shasumCheckSums ∈ completedSteps (fun _ => true) :=
  ⟨(C3_signature_then_checksums_then_unpack (fun _ => true)).1 (by decide),
   (C3_signature_then_checksums_then_unpack (fun _ => true)).2.1
     "manylinux_2_5_x86_64.musllinux_1_1_x86_64" (by decide)⟩

/-! ## Claim theorem about error propagation and the exit status -/

/-- C7: no failure is caught or recovered: the process exits with status 0
exactly when every step of the run succeeds (so all platform iterations
completed), and the first failing step makes the exit status 1, aborting the
run immediately — the invoked steps are exactly the trace prefix through the
failing step and the completed steps the prefix strictly before it. -/
theorem C7_fail_fast_nonzero_exit (ok : Nat → Bool) :
    (processExitCode ok = 0 ↔ ∀ i, i < mainTrace.length → ok i = true) ∧
    (processExitCode ok = 0 →
      invokedSteps ok = mainTrace ∧ completedSteps ok = mainTrace) ∧
    (∀ i, firstFailure ok mainTrace.length = some i →
      processExitCode ok = 1 ∧ ok i = false ∧ (∀ j, j < i → ok j = true) ∧
      invokedSteps ok = mainTrace.take (i + 1) ∧
      completedSteps ok = mainTrace.take i) := by
  refine ⟨?_, ?_, ?_⟩
  · unfold processExitCode
    cases hf : firstFailure ok mainTrace.length with
    | none =>
      exact iff_of_true rfl ((firstFailure_none_iff ok mainTrace.length).mp hf)
    | some i =>
      constructor
      · intro hc
        simp at hc
      · intro hall
        have hnone := (firstFailure_none_iff ok mainTrace.length).mpr hall
        rw [hf] at hnone
        simp at hnone
  · intro h0
    unfold processExitCode at h0
    unfold invokedSteps completedSteps
    cases hf : firstFailure ok mainTrace.length with
    | none => exact ⟨rfl, rfl⟩
    | some i =>
      rw [hf] at h0
      simp at h0
  · intro i hf
    obtain ⟨hlt, hfalse, hbefore⟩ :=
      firstFailure_some_spec ok mainTrace.length i hf
    refine ⟨?_, hfalse, hbefore, ?_, ?_⟩
    · unfold processExitCode
      rw [hf]
    · unfold invokedSteps
      rw [hf]
    · unfold completedSteps
      rw [hf]

/-- Witness for C7 on an all-success run and on a run whose first step
fails. -/
theorem C7_fail_fast_witness :
    processExitCode (fun _ => true) = 0 ∧
    processExitCode (fun _ => false) = 1 ∧
    invokedSteps (fun _ => false) = mainTrace.take 1 :=
  ⟨(C7_fail_fast_nonzero_exit (fun _ => true)).1.mpr (fun _ _ => rfl),
   ((C7_fail_fast_nonzero_exit (fun _ => false)).2.2 0 (by decide)).1,
   ((C7_fail_fast_nonzero_exit (fun _ => false)).2.2 0 (by decide)).2.2.2.1⟩

/-! ## Distinctness of the five wheel entry paths -/

theorem string_append_left_cancel {s a b : String} (h : s ++ a = s ++ b) :
    a = b := by
  apply String.ext
  have h2 := congrArg String.data h
  rw [String.data_append, String.data_append] at h2
  exact List.append_cancel_left h2

theorem append_ne_of_ne_right (wn : String) {a b : String} (h : a ≠ b) :
    wn ++ a ≠ wn ++ b :=
  fun hc => h (string_append_left_cancel hc)

theorem data_scripts_ne_info (wn bin t : String)
    (ht : t.data.take 3 = ['.', 'd', 'i']) :
    wn ++ ".data/scripts/" ++ bin ≠ wn ++ t := by
  intro h
  rw [String.append_assoc] at h
  have h2 : (".data/scripts/" ++ bin).data = t.data :=
    congrArg String.data (string_append_left_cancel h)
  have h3 : ((".data/scripts/" ++ bin).data).take 3 = ['.', 'd', 'a'] := rfl
  rw [h2, ht] at h3
  simp at h3

/-! ## Claim theorem about the archive contents and RECORD -/

/-- C1: for every platform iteration in a fresh run the output archive holds
exactly five file entries — the binary under `{wheelname}.data/scripts/` and
LICENSE, METADATA, WHEEL, RECORD under `{wheelname}.dist-info/` — and the
written RECORD has exactly one `path,digest,length` entry for every file of
the assembled tree other than RECORD itself, plus exactly one entry for
RECORD's own path, with empty digest and length fields. -/
theorem C1_five_entries_and_record (wn binName : String)
    (binBytes licenseBytes metadataBytes wheelBytes : List Nat) :
    zipNames (finalWheelTree wn binName binBytes licenseBytes metadataBytes wheelBytes) =
      [wn ++ ".data/scripts/" ++ binName, wn ++ ".dist-info/LICENSE",
       wn ++ ".dist-info/METADATA", wn ++ ".dist-info/WHEEL",
       wheelRecordPath wn] ∧
    (zipNames (finalWheelTree wn binName binBytes licenseBytes metadataBytes wheelBytes)).length = 5 ∧
    (zipNames (finalWheelTree wn binName binBytes licenseBytes metadataBytes wheelBytes)).Nodup ∧
    (∀ f ∈ finalWheelTree wn binName binBytes licenseBytes metadataBytes wheelBytes,
      f.path ≠ wheelRecordPath wn →
      (wheelRecordEntries
          (assembledFiles wn binName binBytes licenseBytes metadataBytes wheelBytes)
          (wheelRecordPath wn)).countP (fun e => e.1 == f.path) = 1 ∧
      (f.path, (rehashBytes f.content).1, (rehashBytes f.content).2) ∈
        wheelRecordEntries
          (assembledFiles wn binName binBytes licenseBytes metadataBytes wheelBytes)
          (wheelRecordPath wn)) ∧
    (wheelRecordEntries
        (assembledFiles wn binName binBytes licenseBytes metadataBytes wheelBytes)
        (wheelRecordPath wn)).countP (fun e => e.1 == wheelRecordPath wn) = 1 ∧
    (wheelRecordPath wn, "", "") ∈
      wheelRecordEntries
        (assembledFiles wn binName binBytes licenseBytes metadataBytes wheelBytes)
        (wheelRecordPath wn) ∧
    (wheelRecordEntries
        (assembledFiles wn binName binBytes licenseBytes metadataBytes wheelBytes)
        (wheelRecordPath wn)).length =
      (finalWheelTree wn binName binBytes licenseBytes metadataBytes wheelBytes).length := by
  have hb2 : wn ++ ".data/scripts/" ++ binName ≠ wn ++ ".dist-info/LICENSE" :=
    data_scripts_ne_info wn binName _ rfl
  have hb3 : wn ++ ".data/scripts/" ++ binName ≠ wn ++ ".dist-info/METADATA" :=
    data_scripts_ne_info wn binName _ rfl
  have hb4 : wn ++ ".data/scripts/" ++ binName ≠ wn ++ ".dist-info/WHEEL" :=
    data_scripts_ne_info wn binName _ rfl
  have hb5 : wn ++ ".data/scripts/" ++ binName ≠ wheelRecordPath wn :=
    data_scripts_ne_info wn binName _ rfl
  have h23 : wn ++ ".dist-info/LICENSE" ≠ wn ++ ".dist-info/METADATA" :=
    append_ne_of_ne_right wn (by decide)
  have h24 : wn ++ ".dist-info/LICENSE" ≠ wn ++ ".dist-info/WHEEL" :=
    append_ne_of_ne_right wn (by decide)
  have h25 : wn ++ ".dist-info/LICENSE" ≠ wheelRecordPath wn :=
    append_ne_of_ne_right wn (by decide)
  have h34 : wn ++ ".dist-info/METADATA" ≠ wn ++ ".dist-info/WHEEL" :=
    append_ne_of_ne_right wn (by decide)
  have h35 : wn ++ ".dist-info/METADATA" ≠ wheelRecordPath wn :=
    append_ne_of_ne_right wn (by decide)
  have h45 : wn ++ ".dist-info/WHEEL" ≠ wheelRecordPath wn :=
    append_ne_of_ne_right wn (by decide)
  refine ⟨rfl, rfl, ?_, ?_, ?_, ?_, rfl⟩
  · show (List.Nodup _)
    have hz : zipNames (finalWheelTree wn binName binBytes licenseBytes metadataBytes wheelBytes) =
        [wn ++ ".data/scripts/" ++ binName, wn ++ ".dist-info/LICENSE",
         wn ++ ".dist-info/METADATA", wn ++ ".dist-info/WHEEL",
         wheelRecordPath wn] := rfl
    rw [hz]
    simp only [List.nodup_cons, List.mem_cons, List.mem_singleton,
      List.not_mem_nil, not_false_eq_true, and_true, List.nodup_nil, not_or]
    exact ⟨⟨hb2, hb3, hb4, hb5⟩, ⟨h23, h24, h25⟩, ⟨h34, h35⟩, h45⟩
  · intro f hf hne
    simp only [finalWheelTree, assembledFiles, List.mem_append, List.mem_cons,
      List.mem_singleton, List.not_mem_nil, or_false] at hf
    rcases hf with (rfl | rfl | rfl | rfl) | rfl
    · constructor
      · simp [wheelRecordEntries, assembledFiles, List.countP_cons, beq_iff_eq,
          hb2.symm, hb3.symm, hb4.symm, hb5.symm]
      · simp [wheelRecordEntries, assembledFiles]
    · constructor
      · simp [wheelRecordEntries, assembledFiles, List.countP_cons, beq_iff_eq,
          hb2, h23.symm, h24.symm, h25.symm]
      · simp [wheelRecordEntries, assembledFiles]
    · constructor
      · simp [wheelRecordEntries, assembledFiles, List.countP_cons, beq_iff_eq,
          hb3, h23, h34.symm, h35.symm]
      · simp [wheelRecordEntries, assembledFiles]
    · constructor
      · simp [wheelRecordEntries, assembledFiles, List.countP_cons, beq_iff_eq,
          hb4, h24, h34, h45.symm]
      · simp [wheelRecordEntries, assembledFiles]
    · exact absurd rfl hne
  · simp [wheelRecordEntries, assembledFiles, List.countP_cons, beq_iff_eq,
      hb5, h25, h35, h45]
  · simp [wheelRecordEntries, assembledFiles]

/-- Witness for C1 at concrete values, for the LICENSE file. -/
theorem C1_five_entries_witness :
    (wheelRecordEntries (assembledFiles "w" "terraform" [0] [1] [2] [3])
        (wheelRecordPath "w")).countP
      (fun e => e.1 == "w" ++ ".dist-info/LICENSE") = 1 :=
  ((C1_five_entries_and_record "w" "terraform" [0] [1] [2] [3]).2.2.2.1
    ⟨"w" ++ ".dist-info/LICENSE", [1], none⟩
    (by simp [finalWheelTree, assembledFiles]) (by decide)).1

end MakeWheels
